import Mathlib

/-!
Shallow embedding of the user-data event reconciliation subsystem of
`backend/main.py` (class `OrderStore`, class `ConnectionManager`, and the
coroutine `fallback_user_stream_watchdog`), together with proofs about the
claims on that code.

Modelling conventions:
* Python `float` values and their `f"{x:.8f}"` string round-trips are
  abstracted to exact rationals (`ℚ`); the 8-decimal rounding is treated as
  the identity.  Monotonic clock readings are likewise `ℚ`.
* Python dicts are association lists (`List (key × value)`) with
  insertion-order-preserving, replace-in-place insertion, matching dict
  semantics; Python sets of order ids are `Finset ℕ`.
* A wire field chain `rep.get('a') or rep.get('A')` is collapsed into one
  optional field of the event structure; `_to_decimal` (malformed → `0.0`)
  makes the numeric event fields plain rationals with `0` for "absent".
* The module-global broadcast queue `_order_store_broadcast_queue` is made a
  `notifications` field of the store state; `await put` never drops, so it is
  modelled as list append.
-/

namespace Srinance

/-- Association-list lookup, modelling Python `dict.get`. -/
def dictLookup {α β : Type} [DecidableEq α] (k : α) : List (α × β) → Option β
  | [] => none
  | (k', v) :: rest => if k' = k then some v else dictLookup k rest

/-- Association-list insertion, modelling Python `dict[k] = v`:
replaces in place when the key exists, otherwise appends. -/
def dictInsert {α β : Type} [DecidableEq α] (k : α) (v : β) : List (α × β) → List (α × β)
  | [] => [(k, v)]
  | (k', v') :: rest => if k' = k then (k, v) :: rest else (k', v') :: dictInsert k v rest

/-- Python `str.upper()` on the ASCII strings this code handles, written
structurally over the character list so that it kernel-reduces. -/
def upperString (s : String) : String := String.mk (s.data.map Char.toUpper)

/-- One fill record appended by `apply_execution_report` on a TRADE event. -/
structure Fill where
  tradeId : Option ℕ
  qty : ℚ
  price : ℚ
  quoteQty : ℚ
  commission : Option String
  commissionAsset : Option String
  time : Option ℕ
deriving DecidableEq, Repr

/-- The in-memory order record kept in `OrderStore.orders`. -/
structure Order where
  orderId : ℕ
  clientOrderId : Option String
  symbol : String
  side : Option String
  otype : Option String
  timeInForce : Option String
  price : ℚ
  origQty : ℚ
  executedQty : ℚ
  cummulativeQuoteQty : ℚ
  avgPrice : ℚ
  fills : List Fill
  status : Option String
  updateTime : Option ℕ
deriving DecidableEq, Repr

/-- A balance record kept in `OrderStore.balances`; `apply_account_position`
stores the raw (possibly absent) wire values, hence the `Option`s. -/
structure Balance where
  asset : String
  free : Option ℚ
  locked : Option ℚ
deriving DecidableEq, Repr

/-- A normalized `listStatus` event, stored verbatim in `oco_lists`. -/
structure ListStatusEvent where
  orderListId : Option ℕ
  contingencyType : Option String
  listStatusType : Option String
  listOrderStatus : Option String
  symbol : String
  eventTime : Option ℕ
deriving DecidableEq, Repr

/-- Notifications enqueued on `_order_store_broadcast_queue`. -/
inductive Notif where
  | orderDelta (order : Order)
  | balanceDelta (balances : List Balance)
  | listStatusDelta (evt : ListStatusEvent)
deriving DecidableEq, Repr

/-- A normalized execution report (`rep` argument of `apply_execution_report`).
Numeric fields already went through `_to_decimal` (absent/malformed → 0). -/
structure ExecReport where
  orderId : Option ℕ
  clientOrderId : Option String
  symbol : Option String
  side : Option String
  orderType : Option String
  timeInForce : Option String
  price : Option ℚ
  origQty : Option ℚ
  status : Option String
  execType : Option String
  lastQty : ℚ
  lastPrice : ℚ
  cumQty : ℚ
  cumQuote : ℚ
  fee : Option String
  feeAsset : Option String
  tradeId : Option ℕ
  eventTime : Option ℕ
  orderTime : Option ℕ
deriving DecidableEq, Repr

/-- One entry of an `outboundAccountPosition` balances list or of a REST
account-balances snapshot. -/
structure BalanceEntry where
  asset : Option String
  free : Option ℚ
  locked : Option ℚ
deriving DecidableEq, Repr

/-- A normalized `balanceUpdate` event; `delta = none` models an unparseable
delta string (the `float(...)` failure path). -/
structure BalanceUpdateEvent where
  asset : Option String
  delta : Option ℚ
deriving DecidableEq, Repr

/-- One entry of a REST open-orders snapshot, as read by
`merge_rest_open_orders`. -/
structure RestOrder where
  orderId : Option ℕ
  clientOrderId : Option String
  symbol : Option String
  side : Option String
  otype : Option String
  timeInForce : Option String
  price : Option ℚ
  origQty : Option ℚ
  executedQty : Option ℚ
  cummulativeQuoteQty : Option ℚ
  avgPrice : Option ℚ
  status : Option String
  updateTime : Option ℕ
deriving DecidableEq, Repr

/-- The state owned by `OrderStore`, plus the module-global broadcast queue. -/
structure OrderStore where
  orders : List (ℕ × Order)
  openOrders : Finset ℕ
  balances : List (String × Balance)
  ocoLists : List (ℕ × ListStatusEvent)
  history : List Order
  notifications : List Notif
deriving DecidableEq

/-- `OrderStore.__init__`: everything empty. -/
def OrderStore.empty : OrderStore :=
  { orders := [], openOrders := ∅, balances := [], ocoLists := [], history := [],
    notifications := [] }

/-- `OrderStore._map_status`: identity except `CANCELLED ↦ CANCELED`;
`None`/falsy statuses pass through unchanged. -/
def mapStatus : Option String → Option String
  | none => none
  | some s => some (if s = "CANCELLED" then "CANCELED" else s)

/-- `self._final_statuses`. -/
def finalStatuses : List String := ["FILLED", "CANCELED", "REJECTED", "EXPIRED"]

/-- The `status in ("NEW", "PARTIALLY_FILLED")` test that keeps an order in
the open set. -/
def isOpenStatus (st : Option String) : Bool :=
  st = some "NEW" || st = some "PARTIALLY_FILLED"

/-- The `status in self._final_statuses` membership test, expanded over the
four members of `finalStatuses`. -/
def isFinalStatus (st : Option String) : Bool :=
  match st with
  | none => false
  | some s => s = "FILLED" || s = "CANCELED" || s = "REJECTED" || s = "EXPIRED"

/-- `self._history_max` (the `deque(maxlen=200)` capacity). -/
def historyMax : ℕ := 200

/-- Appending to the bounded history deque: evicts the oldest entry when the
ring is at capacity. -/
def pushHistory (h : List Order) (o : Order) : List Order :=
  if h.length < historyMax then h ++ [o] else h.drop 1 ++ [o]

/-- The order structure initialized by `apply_execution_report` on the first
event for an unseen order id (lines 117–133); note the status is the event's
(mapped) status, possibly absent. -/
def execFreshOrder (rep : ExecReport) (oid : ℕ) : Order :=
  { orderId := oid
    clientOrderId := rep.clientOrderId
    symbol := upperString (rep.symbol.getD "")
    side := rep.side
    otype := rep.orderType
    timeInForce := rep.timeInForce
    price := rep.price.getD 0
    origQty := rep.origQty.getD 0
    executedQty := 0
    cummulativeQuoteQty := 0
    avgPrice := 0
    fills := []
    status := mapStatus rep.status
    updateTime := rep.eventTime }

/-- `existing = self.orders.get(oid, {})` plus the fresh initialization. -/
def execBase (store : OrderStore) (rep : ExecReport) (oid : ℕ) : Order :=
  match dictLookup oid store.orders with
  | some o => o
  | none => execFreshOrder rep oid

/-- The fill-detection step (lines 135–149): on a TRADE execution with
positive last quantity, append a fill record with quote amount
`lastQty × lastPrice`. -/
def execWithFill (rep : ExecReport) (base : Order) : Order :=
  if rep.execType = some "TRADE" ∧ 0 < rep.lastQty then
    { base with fills := base.fills ++
        [{ tradeId := rep.tradeId
           qty := rep.lastQty
           price := rep.lastPrice
           quoteQty := rep.lastQty * rep.lastPrice
           commission := rep.fee
           commissionAsset := rep.feeAsset
           time := rep.orderTime.orElse fun _ => rep.eventTime }] }
  else base

/-- The cumulative-totals step (lines 150–154): events carry running
cumulative totals, so nonzero values overwrite (Python truthiness of
`if cum_qty:`). -/
def execWithCum (rep : ExecReport) (o : Order) : Order :=
  { o with
    executedQty := if rep.cumQty ≠ 0 then rep.cumQty else o.executedQty
    cummulativeQuoteQty := if rep.cumQuote ≠ 0 then rep.cumQuote else o.cummulativeQuoteQty }

/-- The average-price step (lines 155–162): recompute only when the stored
executed quantity is positive. -/
def execWithAvg (o : Order) : Order :=
  if 0 < o.executedQty then
    { o with avgPrice := o.cummulativeQuoteQty / o.executedQty }
  else o

/-- The fully updated order record (lines 135–164): fill step, cumulative
step, average-price step, then status and update-time overwrite. -/
def execUpdated (rep : ExecReport) (base : Order) : Order :=
  let o := execWithAvg (execWithCum rep (execWithFill rep base))
  { o with
    status := mapStatus rep.status
    updateTime := rep.eventTime.orElse fun _ => o.updateTime }

/-- `OrderStore.apply_execution_report`.  Mirrors `backend/main.py` lines
94–187: look up or create the order, run the update steps above, store the
result, maintain the open set, push to history on a final status, and always
enqueue an `order_delta` notification.  There is no event-timestamp
comparison anywhere in the source. -/
def applyExecutionReport (store : OrderStore) (rep : ExecReport) : OrderStore :=
  match rep.orderId with
  | none => store
  | some oid =>
    let status := mapStatus rep.status
    let updated := execUpdated rep (execBase store rep oid)
    let store1 : OrderStore := { store with orders := dictInsert oid updated store.orders }
    let store2 : OrderStore :=
      if isOpenStatus status then
        { store1 with openOrders := insert oid store1.openOrders }
      else
        let s := { store1 with openOrders := store1.openOrders.erase oid }
        if isFinalStatus status then { s with history := pushHistory s.history updated }
        else s
    { store2 with notifications := store2.notifications ++ [Notif.orderDelta updated] }

/-- The `for b in pos.get('balances', [])` loop of `apply_account_position`:
each entry with a non-empty asset name overwrites the upper-cased asset key. -/
def accountPositionFold : List BalanceEntry → List (String × Balance) → List (String × Balance)
  | [], balances => balances
  | b :: rest, balances =>
    match b.asset with
    | none => accountPositionFold rest balances
    | some a =>
      if a = "" then accountPositionFold rest balances
      else accountPositionFold rest
        (dictInsert (upperString a) { asset := upperString a, free := b.free, locked := b.locked }
          balances)

/-- `OrderStore.apply_account_position` (lines 189–203): run the overwrite
loop, then enqueue one `balance_delta` notification carrying
`list(self.balances.values())` — the whole updated balance map. -/
def applyAccountPosition (store : OrderStore) (pos : List BalanceEntry) : OrderStore :=
  let newBalances : List (String × Balance) := accountPositionFold pos store.balances
  { store with
    balances := newBalances
    notifications := store.notifications ++
      [Notif.balanceDelta (newBalances.map Prod.snd)] }

/-- `OrderStore.apply_balance_update` (lines 205–221): add the delta to the
named asset's free amount (zero baseline if unseen); a `float` failure on
either operand (modelled by `none`) leaves the amounts unchanged; always
re-store the record and enqueue a single-record `balance_delta`. -/
def applyBalanceUpdate (store : OrderStore) (upd : BalanceUpdateEvent) : OrderStore :=
  match upd.asset with
  | none => store
  | some a =>
    if a = "" then store
    else
      let key := upperString a
      let bal : Balance :=
        (dictLookup key store.balances).getD { asset := key, free := some 0, locked := some 0 }
      let bal' : Balance :=
        match bal.free, upd.delta with
        | some f, some d => { bal with free := some (f + d) }
        | _, _ => bal
      { store with
        balances := dictInsert key bal' store.balances
        notifications := store.notifications ++ [Notif.balanceDelta [bal']] }

/-- `OrderStore.apply_list_status` (lines 223–232). -/
def applyListStatus (store : OrderStore) (evt : ListStatusEvent) : OrderStore :=
  match evt.orderListId with
  | none => store
  | some lid =>
    { store with
      ocoLists := dictInsert lid evt store.ocoLists
      notifications := store.notifications ++ [Notif.listStatusDelta evt] }

/-- The stats dict returned by `merge_rest_open_orders`. -/
structure MergeStats where
  addedOpenFromREST : ℕ
  removedOpenMissingInREST : ℕ
  placeholdersCreated : ℕ
deriving DecidableEq, Repr

/-- The minimal placeholder order created by `merge_rest_open_orders` for a
REST order id not yet known locally (lines 269–284); status defaults to
`NEW` when the snapshot entry carries none. -/
def placeholderOrder (oid : ℕ) (o : RestOrder) : Order :=
  { orderId := oid
    clientOrderId := o.clientOrderId
    symbol := upperString (o.symbol.getD "")
    side := o.side
    otype := o.otype
    timeInForce := o.timeInForce
    price := o.price.getD 0
    origQty := o.origQty.getD 0
    executedQty := o.executedQty.getD 0
    cummulativeQuoteQty := o.cummulativeQuoteQty.getD 0
    avgPrice := o.avgPrice.getD 0
    fills := []
    status := some (o.status.getD "NEW")
    updateTime := o.updateTime }

/-- Accumulator of the `for o in rest_open` loop of `merge_rest_open_orders`. -/
structure MergeAcc where
  restIds : Finset ℕ
  orders : List (ℕ × Order)
  openOrders : Finset ℕ
  placeholders : ℕ

/-- The `for o in rest_open` loop (lines 262–287): collect rest ids, create a
placeholder for each id missing from `self.orders`, add every id to the open
set. -/
def mergeLoop (acc : MergeAcc) : List RestOrder → MergeAcc
  | [] => acc
  | o :: rest =>
    match o.orderId with
    | none => mergeLoop acc rest
    | some oid =>
      let fresh := (dictLookup oid acc.orders).isNone
      mergeLoop
        { restIds := insert oid acc.restIds
          orders :=
            if fresh then dictInsert oid (placeholderOrder oid o) acc.orders else acc.orders
          openOrders := insert oid acc.openOrders
          placeholders := if fresh then acc.placeholders + 1 else acc.placeholders }
        rest

/-- `OrderStore.merge_rest_open_orders` (lines 248–311).  After the loop, the
source snapshots the open set and discards every member not in `rest_ids`
(modelled as the equivalent filter); balances are wholesale-replaced only
when the REST balances list is non-empty (Python truthiness of
`if rest_balances:`).  No notification is enqueued. -/
def mergeRestOpenOrders (store : OrderStore) (restOpen : List RestOrder)
    (restBalances : List BalanceEntry) : OrderStore × MergeStats :=
  let acc := mergeLoop
    { restIds := ∅, orders := store.orders, openOrders := store.openOrders, placeholders := 0 }
    restOpen
  let removed := (acc.openOrders.filter (fun oid => oid ∉ acc.restIds)).card
  let newOpen := acc.openOrders.filter (fun oid => oid ∈ acc.restIds)
  let newBalances : List (String × Balance) :=
    if restBalances.isEmpty then store.balances
    else
      restBalances.foldl
        (fun accB b =>
          let asset := upperString (b.asset.getD "")
          if asset = "" then accB
          else dictInsert asset
            { asset := asset, free := some (b.free.getD 0), locked := some (b.locked.getD 0) }
            accB)
        []
  ({ store with orders := acc.orders, openOrders := newOpen, balances := newBalances },
   { addedOpenFromREST := acc.restIds.card
     removedOpenMissingInREST := removed
     placeholdersCreated := acc.placeholders })

/-- The stores reachable from the empty store by the five mutating
operations (including REST reconciliation). -/
inductive Reachable : OrderStore → Prop
  | init : Reachable OrderStore.empty
  | execReport {s : OrderStore} (rep : ExecReport) :
      Reachable s → Reachable (applyExecutionReport s rep)
  | accountPosition {s : OrderStore} (pos : List BalanceEntry) :
      Reachable s → Reachable (applyAccountPosition s pos)
  | balanceUpdate {s : OrderStore} (upd : BalanceUpdateEvent) :
      Reachable s → Reachable (applyBalanceUpdate s upd)
  | listStatus {s : OrderStore} (evt : ListStatusEvent) :
      Reachable s → Reachable (applyListStatus s evt)
  | mergeRest {s : OrderStore} (restOpen : List RestOrder) (restBalances : List BalanceEntry) :
      Reachable s → Reachable (mergeRestOpenOrders s restOpen restBalances).1

/-- The stores reachable by event application alone (no REST merge). -/
inductive ReachableApply : OrderStore → Prop
  | init : ReachableApply OrderStore.empty
  | execReport {s : OrderStore} (rep : ExecReport) :
      ReachableApply s → ReachableApply (applyExecutionReport s rep)
  | accountPosition {s : OrderStore} (pos : List BalanceEntry) :
      ReachableApply s → ReachableApply (applyAccountPosition s pos)
  | balanceUpdate {s : OrderStore} (upd : BalanceUpdateEvent) :
      ReachableApply s → ReachableApply (applyBalanceUpdate s upd)
  | listStatus {s : OrderStore} (evt : ListStatusEvent) :
      ReachableApply s → ReachableApply (applyListStatus s evt)

/-- The websocket channel lists held by `ConnectionManager`; connections are
abstracted to numeric identifiers. -/
structure ConnectionManager where
  marketConnections : List ℕ
  botConnections : List ℕ
  userConnections : List ℕ
  maxConnections : ℕ
deriving DecidableEq, Repr

/-- Outcome of a `connect_*` call: an accept (returning the new channel
count) or a `close(code=...)` rejection (the source then returns `0`). -/
inductive ConnectResult where
  | accepted (total : ℕ)
  | rejected (closeCode : ℕ)
deriving DecidableEq, Repr

/-- `ConnectionManager.connect_market` (lines 332–350): reject with policy
close code 1008 when the market channel is at `max_connections`, otherwise
accept and append. -/
def connectMarket (m : ConnectionManager) (ws : ℕ) : ConnectionManager × ConnectResult :=
  if m.maxConnections ≤ m.marketConnections.length then
    (m, ConnectResult.rejected 1008)
  else
    let m' := { m with marketConnections := m.marketConnections ++ [ws] }
    (m', ConnectResult.accepted m'.marketConnections.length)

/-- `ConnectionManager.connect_bot` (lines 352–360): accepts unconditionally. -/
def connectBot (m : ConnectionManager) (ws : ℕ) : ConnectionManager × ConnectResult :=
  let m' := { m with botConnections := m.botConnections ++ [ws] }
  (m', ConnectResult.accepted m'.botConnections.length)

/-- `ConnectionManager.connect_user` (lines 362–370): accepts
unconditionally — the source performs no `max_connections` check here. -/
def connectUser (m : ConnectionManager) (ws : ℕ) : ConnectionManager × ConnectResult :=
  let m' := { m with userConnections := m.userConnections ++ [ws] }
  (m', ConnectResult.accepted m'.userConnections.length)

/-- The local state of `fallback_user_stream_watchdog`: the debounce
timestamp `last_fallback_ts`. -/
structure WatchdogState where
  lastFallbackTs : Option ℚ
deriving DecidableEq, Repr

/-- The environment observed by one iteration of the watchdog loop: the
monotonic clock, the global `_user_stream_last_event_time`, and whether any
user-channel subscriber is connected at broadcast time. -/
structure WatchdogCheck where
  now : ℚ
  lastEventTime : Option ℚ
  hasUserConnections : Bool
deriving DecidableEq, Repr

/-- The two subscriber-visible messages a fallback broadcasts. -/
inductive WatchdogMsg where
  | systemWarn (ageMs : ℚ) (ts : ℚ)
  | ordersSnapshotFallback (ts : ℚ)
deriving DecidableEq, Repr

/-- Whether one watchdog iteration triggers the fallback
(`fallback_user_stream_watchdog`, lines 1226–1233): the last-event age must
exceed `stale_after`, and the debounce `last_fallback_ts and
(now - last_fallback_ts) < stale_after` must fail (Python float truthiness:
a recorded timestamp of exactly `0` does not debounce). -/
def watchdogFires (staleAfter : ℚ) (st : WatchdogState) (c : WatchdogCheck) : Bool :=
  match c.lastEventTime with
  | none => false
  | some t0 =>
    if staleAfter < c.now - t0 then
      match st.lastFallbackTs with
      | none => true
      | some f => if f ≠ 0 ∧ c.now - f < staleAfter then false else true
    else false

/-- The messages one fallback broadcasts (lines 1265–1285): one `system`
warning then one `orders_snapshot` with `fallback: true`, delivered only when
user subscribers are connected. -/
def watchdogFireMsgs (c : WatchdogCheck) : List WatchdogMsg :=
  if c.hasUserConnections then
    [WatchdogMsg.systemWarn ((c.now - c.lastEventTime.getD 0) * 1000) c.now,
     WatchdogMsg.ordersSnapshotFallback c.now]
  else []

/-- One iteration of the watchdog loop (lines 1223–1288): on a fire, record
`last_fallback_ts = now` and broadcast the fallback messages. -/
def watchdogStep (staleAfter : ℚ) (st : WatchdogState) (c : WatchdogCheck) :
    WatchdogState × List WatchdogMsg :=
  if watchdogFires staleAfter st c then
    ({ lastFallbackTs := some c.now }, watchdogFireMsgs c)
  else (st, [])

/-- The subsequence of checks at which the watchdog fires, in order. -/
def watchdogFiredChecks (staleAfter : ℚ) (st : WatchdogState) :
    List WatchdogCheck → List WatchdogCheck
  | [] => []
  | c :: cs =>
    if watchdogFires staleAfter st c then
      c :: watchdogFiredChecks staleAfter (watchdogStep staleAfter st c).1 cs
    else watchdogFiredChecks staleAfter (watchdogStep staleAfter st c).1 cs

/-- All subscriber-visible messages emitted over a run of watchdog
iterations. -/
def watchdogMsgs (staleAfter : ℚ) (st : WatchdogState) : List WatchdogCheck → List WatchdogMsg
  | [] => []
  | c :: cs =>
    (watchdogStep staleAfter st c).2 ++
      watchdogMsgs staleAfter (watchdogStep staleAfter st c).1 cs

/-- The set of order ids carried by a REST snapshot (the `rest_ids` set). -/
def restIdsOf : List RestOrder → Finset ℕ
  | [] => ∅
  | o :: rest =>
    match o.orderId with
    | none => restIdsOf rest
    | some oid => insert oid (restIdsOf rest)

/-- The weak invariant: every open order id is a key of the orders map. -/
def OpenSubsetOrders (s : OrderStore) : Prop :=
  ∀ oid ∈ s.openOrders, (dictLookup oid s.orders).isSome

/-- The invariant claimed by the specification: every open order id maps to a
stored order whose status is NEW or PARTIALLY_FILLED. -/
def OpenInvariant (s : OrderStore) : Prop :=
  ∀ oid ∈ s.openOrders, ∃ ord, dictLookup oid s.orders = some ord ∧
    (ord.status = some "NEW" ∨ ord.status = some "PARTIALLY_FILLED")

/-! ### Concrete fixtures for claim witnesses and counterexamples -/

/-- A trade-fill execution report: order 1, PARTIALLY_FILLED, fill 1 @ 100,
event time 1000. -/
def tradeFillEvent : ExecReport :=
  { orderId := some 1, clientOrderId := some "c1", symbol := some "BTCUSDT",
    side := some "BUY", orderType := some "LIMIT", timeInForce := some "GTC",
    price := some 100, origQty := some 2, status := some "PARTIALLY_FILLED",
    execType := some "TRADE", lastQty := 1, lastPrice := 100, cumQty := 1,
    cumQuote := 100, fee := none, feeAsset := none, tradeId := some 7,
    eventTime := some 1000, orderTime := some 999 }

/-- A pure status execution report (no fill): order 2, NEW. -/
def newStatusEvent : ExecReport :=
  { orderId := some 2, clientOrderId := none, symbol := some "BTCUSDT",
    side := some "BUY", orderType := some "LIMIT", timeInForce := some "GTC",
    price := some 100, origQty := some 1, status := some "NEW", execType := some "NEW",
    lastQty := 0, lastPrice := 0, cumQty := 0, cumQuote := 0, fee := none,
    feeAsset := none, tradeId := none, eventTime := some 500, orderTime := none }

/-- A FILLED trade event for order 5. -/
def filledEvent5 : ExecReport :=
  { tradeFillEvent with
    orderId := some 5
    status := some "FILLED" }

/-- A FILLED trade event for order 7. -/
def filledEvent7 : ExecReport :=
  { tradeFillEvent with
    orderId := some 7
    status := some "FILLED" }

/-- An execution report for an unseen order 9 that carries no status field. -/
def noStatusEvent9 : ExecReport :=
  { newStatusEvent with
    orderId := some 9
    status := none
    execType := none
    eventTime := some 5 }

/-- A REST open-orders snapshot entry carrying only an order id. -/
def restEntry (oid : ℕ) : RestOrder :=
  { orderId := some oid, clientOrderId := none, symbol := none, side := none,
    otype := none, timeInForce := none, price := none, origQty := none,
    executedQty := none, cummulativeQuoteQty := none, avgPrice := none,
    status := none, updateTime := none }

/-- A store whose order 7 is FILLED, then reconciled against a REST snapshot
that still lists order 7 as open: order 7 re-enters the open set with its
terminal status intact. -/
def c3BadStore : OrderStore :=
  (mergeRestOpenOrders (applyExecutionReport OrderStore.empty filledEvent7)
    [restEntry 7] []).1

/-- A store with two locally open NEW orders, ids 1 and 2. -/
def c4StoreAB : OrderStore :=
  applyExecutionReport
    (applyExecutionReport OrderStore.empty
      { newStatusEvent with orderId := some 1 })
    newStatusEvent

/-- An account-position entry for asset ETH. -/
def ethEntry : BalanceEntry := { asset := some "ETH", free := some 1, locked := some 0 }

/-- An account-position entry for asset BTC. -/
def btcEntry : BalanceEntry := { asset := some "BTC", free := some 2, locked := some 0 }

/-- The stored balance record produced by `ethEntry`. -/
def ethBalance : Balance := { asset := "ETH", free := some 1, locked := some 0 }

/-- The stored balance record produced by `btcEntry`. -/
def btcBalance : Balance := { asset := "BTC", free := some 2, locked := some 0 }

/-- The spec's order-555 fill scenario, scaled by 10 to keep the cumulative
wire values integral: NEW, then a fill of 5 @ 100 (cumulative 5 / 500), then
a fill of 5 @ 101 (cumulative 10 / 1005), so the average price is
1005 / 10 = 100.5. -/
def e555a : ExecReport := { newStatusEvent with orderId := some 555 }

def e555b : ExecReport :=
  { tradeFillEvent with
    orderId := some 555
    lastQty := 5
    lastPrice := 100
    cumQty := 5
    cumQuote := 500 }

def e555c : ExecReport :=
  { tradeFillEvent with
    orderId := some 555
    status := some "FILLED"
    lastQty := 5
    lastPrice := 101
    cumQty := 10
    cumQuote := 1005 }

/-- The store after the first two order-555 events. -/
def store555two : OrderStore :=
  applyExecutionReport (applyExecutionReport OrderStore.empty e555a) e555b

/-- The order-555 record after all three events: executed 10, cumulative
quote 1005, average price 1005 / 10 = 100.5, FILLED. -/
def order555 : Order :=
  { orderId := 555, clientOrderId := none, symbol := "BTCUSDT", side := some "BUY",
    otype := some "LIMIT", timeInForce := some "GTC", price := 100, origQty := 1,
    executedQty := 10, cummulativeQuoteQty := 1005, avgPrice := 1005 / 10,
    fills :=
      [{ tradeId := some 7, qty := 5, price := 100, quoteQty := 5 * 100,
         commission := none, commissionAsset := none, time := some 999 },
       { tradeId := some 7, qty := 5, price := 101, quoteQty := 5 * 101,
         commission := none, commissionAsset := none, time := some 999 }],
    status := some "FILLED", updateTime := some 1000 }

/-- A fill-free FILLED execution report for order 7. -/
def statusFilled7 : ExecReport :=
  { newStatusEvent with
    orderId := some 7
    status := some "FILLED"
    eventTime := some 1000 }

/-- The order-7 record stored after `statusFilled7`. -/
def order7 : Order :=
  { orderId := 7, clientOrderId := none, symbol := "BTCUSDT", side := some "BUY",
    otype := some "LIMIT", timeInForce := some "GTC", price := 100, origQty := 1,
    executedQty := 0, cummulativeQuoteQty := 0, avgPrice := 0, fills := [],
    status := some "FILLED", updateTime := some 1000 }

/-- The store whose all-known-orders map holds the FILLED order 7. -/
def c10Store : OrderStore := applyExecutionReport OrderStore.empty statusFilled7

/-- Three watchdog iterations with threshold 10: silence since time 0,
checks at 12 (fires), 14 (debounced), 22 (fires again). -/
def c8Checks : List WatchdogCheck :=
  [{ now := 12, lastEventTime := some 0, hasUserConnections := true },
   { now := 14, lastEventTime := some 0, hasUserConnections := true },
   { now := 22, lastEventTime := some 0, hasUserConnections := true }]

/-- A connection manager whose market and user channels are both at the
configured cap of 1. -/
def c9Manager : ConnectionManager :=
  { marketConnections := [10], botConnections := [], userConnections := [20],
    maxConnections := 1 }

attribute [ext] Order

/-! ### Association-list lemmas -/

theorem dictLookup_insert_self {α β : Type} [DecidableEq α] (k : α) (v : β)
    (l : List (α × β)) : dictLookup k (dictInsert k v l) = some v := by
  induction l with
  | nil => simp [dictInsert, dictLookup]
  | cons hd tl ih =>
    by_cases h : hd.1 = k
    · simp [dictInsert, dictLookup, h]
    · simp [dictInsert, dictLookup, h, ih]

theorem dictLookup_insert_ne {α β : Type} [DecidableEq α] {k k' : α} (v : β)
    (l : List (α × β)) (h : k' ≠ k) :
    dictLookup k' (dictInsert k v l) = dictLookup k' l := by
  have hk : k ≠ k' := fun hh => h (Eq.symm hh)
  induction l with
  | nil =>
    simp only [dictInsert, dictLookup]
    rw [if_neg hk]
  | cons hd tl ih =>
    by_cases hh : hd.1 = k
    · simp only [dictInsert, if_pos hh, dictLookup]
      rw [if_neg hk, if_neg (hh ▸ hk)]
    · simp only [dictInsert, if_neg hh, dictLookup]
      by_cases hk2 : hd.1 = k'
      · rw [if_pos hk2, if_pos hk2]
      · rw [if_neg hk2, if_neg hk2, ih]

theorem dictInsert_of_lookup_eq {α β : Type} [DecidableEq α] {k : α} {v : β}
    {l : List (α × β)} (h : dictLookup k l = some v) : dictInsert k v l = l := by
  induction l with
  | nil => simp [dictLookup] at h
  | cons hd tl ih =>
    by_cases hh : hd.1 = k
    · simp only [dictLookup, if_pos hh] at h
      obtain ⟨h1, h2⟩ := hd
      simp only at hh
      subst hh
      injection h with h
      subst h
      simp [dictInsert]
    · simp only [dictLookup, if_neg hh] at h
      simp [dictInsert, hh, ih h]

theorem dictLookup_insert_isSome {α β : Type} [DecidableEq α] (k k' : α) (v : β)
    (l : List (α × β)) (h : (dictLookup k' l).isSome) :
    (dictLookup k' (dictInsert k v l)).isSome := by
  by_cases hk : k' = k
  · simp [hk, dictLookup_insert_self]
  · rwa [dictLookup_insert_ne _ _ hk]

/-! ### Characterization of `applyExecutionReport` -/

theorem applyExec_orders {store : OrderStore} {rep : ExecReport} {oid : ℕ}
    (h : rep.orderId = some oid) :
    (applyExecutionReport store rep).orders =
      dictInsert oid (execUpdated rep (execBase store rep oid)) store.orders := by
  simp only [applyExecutionReport, h]
  split <;> (try split) <;> rfl

theorem applyExec_openOrders {store : OrderStore} {rep : ExecReport} {oid : ℕ}
    (h : rep.orderId = some oid) :
    (applyExecutionReport store rep).openOrders =
      if isOpenStatus (mapStatus rep.status) then insert oid store.openOrders
      else store.openOrders.erase oid := by
  simp only [applyExecutionReport, h]
  split <;> (try split) <;> simp_all

theorem applyExec_history {store : OrderStore} {rep : ExecReport} {oid : ℕ}
    (h : rep.orderId = some oid) :
    (applyExecutionReport store rep).history =
      if isOpenStatus (mapStatus rep.status) then store.history
      else if isFinalStatus (mapStatus rep.status) then
        pushHistory store.history (execUpdated rep (execBase store rep oid))
      else store.history := by
  simp only [applyExecutionReport, h]
  split <;> (try split) <;> simp_all

theorem applyExec_notifications {store : OrderStore} {rep : ExecReport} {oid : ℕ}
    (h : rep.orderId = some oid) :
    (applyExecutionReport store rep).notifications =
      store.notifications ++
        [Notif.orderDelta (execUpdated rep (execBase store rep oid))] := by
  simp only [applyExecutionReport, h]
  split <;> (try split) <;> rfl

theorem applyExec_none {store : OrderStore} {rep : ExecReport}
    (h : rep.orderId = none) : applyExecutionReport store rep = store := by
  simp [applyExecutionReport, h]

/-! ### Field computations of `execUpdated` -/

theorem execUpdated_status (rep : ExecReport) (base : Order) :
    (execUpdated rep base).status = mapStatus rep.status := rfl

theorem execWithFill_executedQty (rep : ExecReport) (base : Order) :
    (execWithFill rep base).executedQty = base.executedQty := by
  simp only [execWithFill]; split <;> rfl

theorem execWithFill_cumQuote (rep : ExecReport) (base : Order) :
    (execWithFill rep base).cummulativeQuoteQty = base.cummulativeQuoteQty := by
  simp only [execWithFill]; split <;> rfl

theorem execWithFill_avgPrice (rep : ExecReport) (base : Order) :
    (execWithFill rep base).avgPrice = base.avgPrice := by
  simp only [execWithFill]; split <;> rfl

theorem execWithCum_executedQty (rep : ExecReport) (o : Order) :
    (execWithCum rep o).executedQty =
      if rep.cumQty ≠ 0 then rep.cumQty else o.executedQty := rfl

theorem execWithCum_cumQuote (rep : ExecReport) (o : Order) :
    (execWithCum rep o).cummulativeQuoteQty =
      if rep.cumQuote ≠ 0 then rep.cumQuote else o.cummulativeQuoteQty := rfl

theorem execWithCum_avgPrice (rep : ExecReport) (o : Order) :
    (execWithCum rep o).avgPrice = o.avgPrice := rfl

theorem execWithAvg_executedQty (o : Order) :
    (execWithAvg o).executedQty = o.executedQty := by
  unfold execWithAvg; split <;> rfl

theorem execWithAvg_cumQuote (o : Order) :
    (execWithAvg o).cummulativeQuoteQty = o.cummulativeQuoteQty := by
  unfold execWithAvg; split <;> rfl

theorem execWithAvg_avgPrice_pos (o : Order) (h : 0 < o.executedQty) :
    (execWithAvg o).avgPrice = o.cummulativeQuoteQty / o.executedQty := by
  unfold execWithAvg; rw [if_pos h]

theorem execWithAvg_avgPrice_nonpos (o : Order) (h : ¬ 0 < o.executedQty) :
    (execWithAvg o).avgPrice = o.avgPrice := by
  unfold execWithAvg; rw [if_neg h]

theorem execUpdated_executedQty (rep : ExecReport) (base : Order) :
    (execUpdated rep base).executedQty =
      if rep.cumQty ≠ 0 then rep.cumQty else base.executedQty := by
  show (execWithAvg (execWithCum rep (execWithFill rep base))).executedQty = _
  rw [execWithAvg_executedQty, execWithCum_executedQty, execWithFill_executedQty]

theorem execUpdated_cumQuote (rep : ExecReport) (base : Order) :
    (execUpdated rep base).cummulativeQuoteQty =
      if rep.cumQuote ≠ 0 then rep.cumQuote else base.cummulativeQuoteQty := by
  show (execWithAvg (execWithCum rep (execWithFill rep base))).cummulativeQuoteQty = _
  rw [execWithAvg_cumQuote, execWithCum_cumQuote, execWithFill_cumQuote]

theorem execUpdated_avgPrice_pos (rep : ExecReport) (base : Order)
    (h : 0 < (execUpdated rep base).executedQty) :
    (execUpdated rep base).avgPrice =
      (execUpdated rep base).cummulativeQuoteQty / (execUpdated rep base).executedQty := by
  have e1 : (execUpdated rep base).executedQty =
      (execWithCum rep (execWithFill rep base)).executedQty := execWithAvg_executedQty _
  have e2 : (execUpdated rep base).cummulativeQuoteQty =
      (execWithCum rep (execWithFill rep base)).cummulativeQuoteQty := execWithAvg_cumQuote _
  have e3 : (execUpdated rep base).avgPrice =
      (execWithAvg (execWithCum rep (execWithFill rep base))).avgPrice := rfl
  rw [e1] at h
  rw [e3, execWithAvg_avgPrice_pos _ h, e1, e2]

theorem execUpdated_avgPrice_nonpos (rep : ExecReport) (base : Order)
    (h : ¬ 0 < (execUpdated rep base).executedQty) :
    (execUpdated rep base).avgPrice = base.avgPrice := by
  have e1 : (execUpdated rep base).executedQty =
      (execWithCum rep (execWithFill rep base)).executedQty := execWithAvg_executedQty _
  have e3 : (execUpdated rep base).avgPrice =
      (execWithAvg (execWithCum rep (execWithFill rep base))).avgPrice := rfl
  rw [e1] at h
  rw [e3, execWithAvg_avgPrice_nonpos _ h, execWithCum_avgPrice, execWithFill_avgPrice]

theorem execWithFill_noFill {rep : ExecReport} (base : Order)
    (h : ¬ (rep.execType = some "TRADE" ∧ 0 < rep.lastQty)) :
    execWithFill rep base = base := by
  unfold execWithFill; rw [if_neg h]

theorem execWithAvg_orderId (o : Order) : (execWithAvg o).orderId = o.orderId := by
  unfold execWithAvg; split <;> rfl

theorem execWithAvg_clientOrderId (o : Order) :
    (execWithAvg o).clientOrderId = o.clientOrderId := by
  unfold execWithAvg; split <;> rfl

theorem execWithAvg_symbol (o : Order) : (execWithAvg o).symbol = o.symbol := by
  unfold execWithAvg; split <;> rfl

theorem execWithAvg_side (o : Order) : (execWithAvg o).side = o.side := by
  unfold execWithAvg; split <;> rfl

theorem execWithAvg_otype (o : Order) : (execWithAvg o).otype = o.otype := by
  unfold execWithAvg; split <;> rfl

theorem execWithAvg_timeInForce (o : Order) :
    (execWithAvg o).timeInForce = o.timeInForce := by
  unfold execWithAvg; split <;> rfl

theorem execWithAvg_price (o : Order) : (execWithAvg o).price = o.price := by
  unfold execWithAvg; split <;> rfl

theorem execWithAvg_origQty (o : Order) : (execWithAvg o).origQty = o.origQty := by
  unfold execWithAvg; split <;> rfl

theorem execWithAvg_fills (o : Order) : (execWithAvg o).fills = o.fills := by
  unfold execWithAvg; split <;> rfl

theorem execWithAvg_updateTime (o : Order) :
    (execWithAvg o).updateTime = o.updateTime := by
  unfold execWithAvg; split <;> rfl

theorem execWithFill_fields (rep : ExecReport) (o : Order) :
    (execWithFill rep o).orderId = o.orderId ∧
      (execWithFill rep o).clientOrderId = o.clientOrderId ∧
      (execWithFill rep o).symbol = o.symbol ∧
      (execWithFill rep o).side = o.side ∧
      (execWithFill rep o).otype = o.otype ∧
      (execWithFill rep o).timeInForce = o.timeInForce ∧
      (execWithFill rep o).price = o.price ∧
      (execWithFill rep o).origQty = o.origQty ∧
      (execWithFill rep o).status = o.status ∧
      (execWithFill rep o).updateTime = o.updateTime := by
  unfold execWithFill
  split <;> exact ⟨rfl, rfl, rfl, rfl, rfl, rfl, rfl, rfl, rfl, rfl⟩

theorem execUpdated_updateTime (rep : ExecReport) (base : Order) :
    (execUpdated rep base).updateTime =
      rep.eventTime.orElse fun _ => base.updateTime := by
  show (rep.eventTime.orElse fun _ =>
      (execWithAvg (execWithCum rep (execWithFill rep base))).updateTime) = _
  rw [execWithAvg_updateTime]
  show (rep.eventTime.orElse fun _ => (execWithFill rep base).updateTime) = _
  rw [(execWithFill_fields rep base).2.2.2.2.2.2.2.2.2]

theorem execUpdated_fills (rep : ExecReport) (base : Order) :
    (execUpdated rep base).fills = (execWithFill rep base).fills := by
  show (execWithAvg (execWithCum rep (execWithFill rep base))).fills = _
  rw [execWithAvg_fills]
  rfl

theorem execUpdated_orderId (rep : ExecReport) (base : Order) :
    (execUpdated rep base).orderId = base.orderId := by
  show (execWithAvg (execWithCum rep (execWithFill rep base))).orderId = _
  rw [execWithAvg_orderId]
  exact (execWithFill_fields rep base).1

theorem execUpdated_clientOrderId (rep : ExecReport) (base : Order) :
    (execUpdated rep base).clientOrderId = base.clientOrderId := by
  show (execWithAvg (execWithCum rep (execWithFill rep base))).clientOrderId = _
  rw [execWithAvg_clientOrderId]
  exact (execWithFill_fields rep base).2.1

theorem execUpdated_symbol (rep : ExecReport) (base : Order) :
    (execUpdated rep base).symbol = base.symbol := by
  show (execWithAvg (execWithCum rep (execWithFill rep base))).symbol = _
  rw [execWithAvg_symbol]
  exact (execWithFill_fields rep base).2.2.1

theorem execUpdated_side (rep : ExecReport) (base : Order) :
    (execUpdated rep base).side = base.side := by
  show (execWithAvg (execWithCum rep (execWithFill rep base))).side = _
  rw [execWithAvg_side]
  exact (execWithFill_fields rep base).2.2.2.1

theorem execUpdated_otype (rep : ExecReport) (base : Order) :
    (execUpdated rep base).otype = base.otype := by
  show (execWithAvg (execWithCum rep (execWithFill rep base))).otype = _
  rw [execWithAvg_otype]
  exact (execWithFill_fields rep base).2.2.2.2.1

theorem execUpdated_timeInForce (rep : ExecReport) (base : Order) :
    (execUpdated rep base).timeInForce = base.timeInForce := by
  show (execWithAvg (execWithCum rep (execWithFill rep base))).timeInForce = _
  rw [execWithAvg_timeInForce]
  exact (execWithFill_fields rep base).2.2.2.2.2.1

theorem execUpdated_price (rep : ExecReport) (base : Order) :
    (execUpdated rep base).price = base.price := by
  show (execWithAvg (execWithCum rep (execWithFill rep base))).price = _
  rw [execWithAvg_price]
  exact (execWithFill_fields rep base).2.2.2.2.2.2.1

theorem execUpdated_origQty (rep : ExecReport) (base : Order) :
    (execUpdated rep base).origQty = base.origQty := by
  show (execWithAvg (execWithCum rep (execWithFill rep base))).origQty = _
  rw [execWithAvg_origQty]
  exact (execWithFill_fields rep base).2.2.2.2.2.2.2.1

theorem execUpdated_idem {rep : ExecReport} (base : Order)
    (h : ¬ (rep.execType = some "TRADE" ∧ 0 < rep.lastQty)) :
    execUpdated rep (execUpdated rep base) = execUpdated rep base := by
  have hexec : (execUpdated rep (execUpdated rep base)).executedQty =
      (execUpdated rep base).executedQty := by
    rw [execUpdated_executedQty, execUpdated_executedQty]
    by_cases hc : rep.cumQty ≠ 0 <;> simp [hc]
  have hquote : (execUpdated rep (execUpdated rep base)).cummulativeQuoteQty =
      (execUpdated rep base).cummulativeQuoteQty := by
    rw [execUpdated_cumQuote, execUpdated_cumQuote]
    by_cases hc : rep.cumQuote ≠ 0 <;> simp [hc]
  ext : 1
  · rw [execUpdated_orderId]
  · rw [execUpdated_clientOrderId]
  · rw [execUpdated_symbol]
  · rw [execUpdated_side]
  · rw [execUpdated_otype]
  · rw [execUpdated_timeInForce]
  · rw [execUpdated_price]
  · rw [execUpdated_origQty]
  · exact hexec
  · exact hquote
  · by_cases hpos : 0 < (execUpdated rep (execUpdated rep base)).executedQty
    · have hpos' : 0 < (execUpdated rep base).executedQty := hexec ▸ hpos
      rw [execUpdated_avgPrice_pos _ _ hpos, execUpdated_avgPrice_pos _ _ hpos',
        hexec, hquote]
    · exact execUpdated_avgPrice_nonpos _ _ hpos
  · rw [execUpdated_fills, execWithFill_noFill _ h, execUpdated_fills]
  · rw [execUpdated_status, execUpdated_status]
  · rw [execUpdated_updateTime, execUpdated_updateTime]
    cases rep.eventTime <;> rfl


theorem applyExec_reapply {store : OrderStore} {rep : ExecReport}
    (h : ¬ (rep.execType = some "TRADE" ∧ 0 < rep.lastQty)) :
    (applyExecutionReport (applyExecutionReport store rep) rep).orders =
        (applyExecutionReport store rep).orders ∧
      (applyExecutionReport (applyExecutionReport store rep) rep).openOrders =
        (applyExecutionReport store rep).openOrders := by
  cases hid : rep.orderId with
  | none => rw [applyExec_none hid]; exact ⟨rfl, rfl⟩
  | some oid =>
    set s1 := applyExecutionReport store rep with hs1
    have hlook : dictLookup oid s1.orders =
        some (execUpdated rep (execBase store rep oid)) := by
      rw [hs1, applyExec_orders hid, dictLookup_insert_self]
    have hbase2 : execBase s1 rep oid = execUpdated rep (execBase store rep oid) := by
      unfold execBase
      rw [hlook]
      rfl
    constructor
    · rw [applyExec_orders hid, hbase2, execUpdated_idem _ h,
        dictInsert_of_lookup_eq hlook]
    · rw [applyExec_openOrders hid, hs1, applyExec_openOrders hid]
      by_cases ho : isOpenStatus (mapStatus rep.status)
      · rw [if_pos ho, if_pos ho, Finset.insert_idem]
      · rw [if_neg ho, if_neg ho, Finset.erase_idem]

/-! ### Lemmas about `mergeRestOpenOrders` -/

theorem mem_restIdsOf {k : ℕ} : ∀ {l : List RestOrder},
    k ∈ restIdsOf l ↔ k ∈ l.filterMap (fun o => o.orderId)
  | [] => by simp [restIdsOf]
  | o :: rest => by
    cases ho : o.orderId with
    | none => simp [restIdsOf, ho, mem_restIdsOf (l := rest)]
    | some oid => simp [restIdsOf, ho, mem_restIdsOf (l := rest)]

theorem mergeLoop_restIds (l : List RestOrder) : ∀ acc : MergeAcc,
    (mergeLoop acc l).restIds = acc.restIds ∪ restIdsOf l := by
  induction l with
  | nil => intro acc; simp [mergeLoop, restIdsOf]
  | cons o rest ih =>
    intro acc
    cases ho : o.orderId with
    | none => simp [mergeLoop, ho, ih, restIdsOf]
    | some oid =>
      simp only [mergeLoop, ho, ih, restIdsOf]
      rw [Finset.insert_union, Finset.union_insert]

theorem mergeLoop_openOrders (l : List RestOrder) : ∀ acc : MergeAcc,
    (mergeLoop acc l).openOrders = acc.openOrders ∪ restIdsOf l := by
  induction l with
  | nil => intro acc; simp [mergeLoop, restIdsOf]
  | cons o rest ih =>
    intro acc
    cases ho : o.orderId with
    | none => simp [mergeLoop, ho, ih, restIdsOf]
    | some oid =>
      simp only [mergeLoop, ho, ih, restIdsOf]
      rw [Finset.insert_union, Finset.union_insert]

theorem mergeLoop_lookup_preserved (l : List RestOrder) : ∀ (acc : MergeAcc) (k : ℕ)
    (v : Order), dictLookup k acc.orders = some v →
    dictLookup k (mergeLoop acc l).orders = some v := by
  induction l with
  | nil => intro acc k v h; exact h
  | cons o rest ih =>
    intro acc k v h
    cases ho : o.orderId with
    | none => simpa [mergeLoop, ho] using ih acc k v h
    | some oid =>
      simp only [mergeLoop, ho]
      apply ih
      by_cases hfresh : (dictLookup oid acc.orders).isNone
      · have hk : k ≠ oid := by
          intro he
          subst he
          rw [h] at hfresh
          simp at hfresh
        simp only [hfresh, if_true]
        rwa [dictLookup_insert_ne _ _ hk]
      · simpa [hfresh] using h

theorem mergeLoop_isSome_preserved (l : List RestOrder) : ∀ (acc : MergeAcc) (k : ℕ),
    (dictLookup k acc.orders).isSome →
    (dictLookup k (mergeLoop acc l).orders).isSome := by
  intro acc k h
  obtain ⟨v, hv⟩ := Option.isSome_iff_exists.mp h
  rw [mergeLoop_lookup_preserved l acc k v hv]
  rfl

theorem mergeLoop_lookup_not_mem (l : List RestOrder) : ∀ (acc : MergeAcc) (k : ℕ),
    k ∉ restIdsOf l →
    dictLookup k (mergeLoop acc l).orders = dictLookup k acc.orders := by
  induction l with
  | nil => intro acc k _; rfl
  | cons o rest ih =>
    intro acc k hk
    cases ho : o.orderId with
    | none =>
      simpa [mergeLoop, ho] using ih acc k (by simpa [restIdsOf, ho] using hk)
    | some oid =>
      have hne : k ≠ oid := by
        intro he
        exact hk (by simp [restIdsOf, ho, he])
      have htl : k ∉ restIdsOf rest := fun hmem => hk (by simp [restIdsOf, ho, hmem])
      simp only [mergeLoop, ho]
      rw [ih _ k htl]
      by_cases hfresh : (dictLookup oid acc.orders).isNone
      · simp only [hfresh, if_true]
        exact dictLookup_insert_ne _ _ hne
      · simp [hfresh]

theorem mergeLoop_isSome_of_mem (l : List RestOrder) : ∀ (acc : MergeAcc) (k : ℕ),
    k ∈ restIdsOf l → (dictLookup k (mergeLoop acc l).orders).isSome := by
  induction l with
  | nil => intro acc k h; simp [restIdsOf] at h
  | cons o rest ih =>
    intro acc k hk
    cases ho : o.orderId with
    | none =>
      have hk' : k ∈ restIdsOf rest := by simpa [restIdsOf, ho] using hk
      simpa [mergeLoop, ho] using ih acc k hk'
    | some oid =>
      simp only [restIdsOf, ho, Finset.mem_insert] at hk
      simp only [mergeLoop, ho]
      rcases hk with hk | hk
      · subst hk
        apply mergeLoop_isSome_preserved
        by_cases hfresh : (dictLookup k acc.orders).isNone
        · simp only [hfresh, if_true]
          rw [dictLookup_insert_self]
          rfl
        · have hsome : (dictLookup k acc.orders).isSome := by
            cases hdl : dictLookup k acc.orders with
            | none => exact absurd (by simp [hdl]) hfresh
            | some v => rfl
          rw [if_neg hfresh]
          exact hsome
      · exact ih _ k hk

theorem mergeLoop_placeholder (l : List RestOrder)
    (hnodup : (l.filterMap (fun o => o.orderId)).Nodup) :
    ∀ (acc : MergeAcc) (o : RestOrder) (oid : ℕ), o ∈ l → o.orderId = some oid →
    dictLookup oid acc.orders = none →
    dictLookup oid (mergeLoop acc l).orders = some (placeholderOrder oid o) := by
  induction l with
  | nil => intro acc o oid hmem; simp at hmem
  | cons o0 rest ih =>
    intro acc o oid hmem hid hnone
    rcases List.mem_cons.mp hmem with he | htl
    · subst he
      simp only [mergeLoop, hid]
      have hfresh : (dictLookup oid acc.orders).isNone := by simp [hnone]
      simp only [hfresh, if_true]
      have hnotin : oid ∉ restIdsOf rest := by
        rw [mem_restIdsOf]
        have hthis : (List.filterMap (fun o => o.orderId) (o :: rest)).Nodup := hnodup
        simp only [List.filterMap_cons, hid] at hthis
        exact (List.nodup_cons.mp hthis).1
      rw [mergeLoop_lookup_not_mem rest _ oid hnotin, dictLookup_insert_self]
    · cases ho0 : o0.orderId with
      | none =>
        have hnd : (rest.filterMap (fun o => o.orderId)).Nodup := by
          have hthis := hnodup
          simpa only [List.filterMap_cons, ho0] using hthis
        simpa [mergeLoop, ho0] using ih hnd acc o oid htl hid hnone
      | some oid0 =>
        have hnd0 : (List.filterMap (fun o => o.orderId) (o0 :: rest)).Nodup := hnodup
        simp only [List.filterMap_cons, ho0] at hnd0
        have hnd := (List.nodup_cons.mp hnd0).2
        have hmemid : oid ∈ rest.filterMap (fun o => o.orderId) :=
          List.mem_filterMap.mpr ⟨o, htl, hid⟩
        have hne : oid ≠ oid0 := by
          intro he
          exact (List.nodup_cons.mp hnd0).1 (he ▸ hmemid)
        simp only [mergeLoop, ho0]
        apply ih hnd _ o oid htl hid
        by_cases hfresh : (dictLookup oid0 acc.orders).isNone
        · simp only [hfresh, if_true]
          rwa [dictLookup_insert_ne _ _ hne]
        · simpa [hfresh] using hnone

theorem merge_openOrders (s : OrderStore) (ro : List RestOrder)
    (rb : List BalanceEntry) :
    (mergeRestOpenOrders s ro rb).1.openOrders = restIdsOf ro := by
  show (mergeLoop
      { restIds := ∅, orders := s.orders, openOrders := s.openOrders, placeholders := 0 }
      ro).openOrders.filter (fun oid => oid ∈ (mergeLoop
      { restIds := ∅, orders := s.orders, openOrders := s.openOrders, placeholders := 0 }
      ro).restIds) = restIdsOf ro
  rw [mergeLoop_openOrders, mergeLoop_restIds]
  ext k
  simp only [Finset.mem_filter, Finset.mem_union, Finset.not_mem_empty, false_or]
  tauto

theorem merge_orders (s : OrderStore) (ro : List RestOrder) (rb : List BalanceEntry) :
    (mergeRestOpenOrders s ro rb).1.orders =
      (mergeLoop
        { restIds := ∅, orders := s.orders, openOrders := s.openOrders, placeholders := 0 }
        ro).orders := rfl

theorem merge_history (s : OrderStore) (ro : List RestOrder) (rb : List BalanceEntry) :
    (mergeRestOpenOrders s ro rb).1.history = s.history := rfl

theorem merge_ocoLists (s : OrderStore) (ro : List RestOrder) (rb : List BalanceEntry) :
    (mergeRestOpenOrders s ro rb).1.ocoLists = s.ocoLists := rfl

theorem merge_notifications (s : OrderStore) (ro : List RestOrder)
    (rb : List BalanceEntry) :
    (mergeRestOpenOrders s ro rb).1.notifications = s.notifications := rfl

/-! ### Frame lemmas for the balance/list operations -/

theorem applyAccountPosition_orders (s : OrderStore) (pos : List BalanceEntry) :
    (applyAccountPosition s pos).orders = s.orders := rfl

theorem applyAccountPosition_openOrders (s : OrderStore) (pos : List BalanceEntry) :
    (applyAccountPosition s pos).openOrders = s.openOrders := rfl

theorem applyBalanceUpdate_orders (s : OrderStore) (upd : BalanceUpdateEvent) :
    (applyBalanceUpdate s upd).orders = s.orders := by
  unfold applyBalanceUpdate
  cases upd.asset with
  | none => rfl
  | some a =>
    dsimp only
    by_cases ha : a = ""
    · rw [if_pos ha]
    · rw [if_neg ha]

theorem applyBalanceUpdate_openOrders (s : OrderStore) (upd : BalanceUpdateEvent) :
    (applyBalanceUpdate s upd).openOrders = s.openOrders := by
  unfold applyBalanceUpdate
  cases upd.asset with
  | none => rfl
  | some a =>
    dsimp only
    by_cases ha : a = ""
    · rw [if_pos ha]
    · rw [if_neg ha]

theorem applyListStatus_orders (s : OrderStore) (evt : ListStatusEvent) :
    (applyListStatus s evt).orders = s.orders := by
  unfold applyListStatus
  cases evt.orderListId <;> rfl

theorem applyListStatus_openOrders (s : OrderStore) (evt : ListStatusEvent) :
    (applyListStatus s evt).openOrders = s.openOrders := by
  unfold applyListStatus
  cases evt.orderListId <;> rfl

/-! ### Open-set invariants -/

theorem openSubset_applyExec {s : OrderStore} (rep : ExecReport)
    (h : OpenSubsetOrders s) : OpenSubsetOrders (applyExecutionReport s rep) := by
  cases hid : rep.orderId with
  | none => rw [applyExec_none hid]; exact h
  | some oid =>
    intro k hk
    rw [applyExec_openOrders hid] at hk
    rw [applyExec_orders hid]
    by_cases ho : isOpenStatus (mapStatus rep.status)
    · rw [if_pos ho] at hk
      rcases Finset.mem_insert.mp hk with he | hmem
      · subst he
        rw [dictLookup_insert_self]
        rfl
      · exact dictLookup_insert_isSome _ _ _ _ (h k hmem)
    · rw [if_neg ho] at hk
      exact dictLookup_insert_isSome _ _ _ _ (h k (Finset.mem_of_mem_erase hk))

theorem openSubset_merge {s : OrderStore} (ro : List RestOrder)
    (rb : List BalanceEntry) :
    OpenSubsetOrders (mergeRestOpenOrders s ro rb).1 := by
  intro k hk
  rw [merge_openOrders] at hk
  rw [merge_orders]
  exact mergeLoop_isSome_of_mem ro _ k hk

theorem openSubset_reachable {s : OrderStore} (h : Reachable s) : OpenSubsetOrders s := by
  induction h with
  | init => intro k hk; simp [OrderStore.empty] at hk
  | execReport rep _ ih => exact openSubset_applyExec rep ih
  | accountPosition pos _ ih =>
    intro k hk
    rw [applyAccountPosition_openOrders] at hk
    rw [applyAccountPosition_orders]
    exact ih k hk
  | balanceUpdate upd _ ih =>
    intro k hk
    rw [applyBalanceUpdate_openOrders] at hk
    rw [applyBalanceUpdate_orders]
    exact ih k hk
  | listStatus evt _ ih =>
    intro k hk
    rw [applyListStatus_openOrders] at hk
    rw [applyListStatus_orders]
    exact ih k hk
  | mergeRest ro rb _ _ => exact openSubset_merge ro rb

theorem isOpenStatus_cases {st : Option String} (h : isOpenStatus st = true) :
    st = some "NEW" ∨ st = some "PARTIALLY_FILLED" := by
  unfold isOpenStatus at h
  rcases Bool.or_eq_true_iff.mp h with h1 | h1
  · exact Or.inl (by simpa using h1)
  · exact Or.inr (by simpa using h1)

theorem openInvariant_applyExec {s : OrderStore} (rep : ExecReport)
    (h : OpenInvariant s) : OpenInvariant (applyExecutionReport s rep) := by
  cases hid : rep.orderId with
  | none => rw [applyExec_none hid]; exact h
  | some oid =>
    intro k hk
    rw [applyExec_openOrders hid] at hk
    rw [applyExec_orders hid]
    by_cases ho : isOpenStatus (mapStatus rep.status)
    · rw [if_pos ho] at hk
      rcases Finset.mem_insert.mp hk with he | hmem
      · subst he
        refine ⟨execUpdated rep (execBase s rep k), dictLookup_insert_self _ _ _, ?_⟩
        rw [execUpdated_status]
        exact isOpenStatus_cases ho
      · by_cases hko : k = oid
        · subst hko
          refine ⟨execUpdated rep (execBase s rep k), dictLookup_insert_self _ _ _, ?_⟩
          rw [execUpdated_status]
          exact isOpenStatus_cases ho
        · obtain ⟨ord, hord, hst⟩ := h k hmem
          exact ⟨ord, by rwa [dictLookup_insert_ne _ _ hko], hst⟩
    · rw [if_neg ho] at hk
      have hne : k ≠ oid := Finset.ne_of_mem_erase hk
      obtain ⟨ord, hord, hst⟩ := h k (Finset.mem_of_mem_erase hk)
      exact ⟨ord, by rwa [dictLookup_insert_ne _ _ hne], hst⟩

theorem openInvariant_reachableApply {s : OrderStore} (h : ReachableApply s) :
    OpenInvariant s := by
  induction h with
  | init => intro k hk; simp [OrderStore.empty] at hk
  | execReport rep _ ih => exact openInvariant_applyExec rep ih
  | accountPosition pos _ ih =>
    intro k hk
    rw [applyAccountPosition_openOrders] at hk
    rw [applyAccountPosition_orders]
    exact ih k hk
  | balanceUpdate upd _ ih =>
    intro k hk
    rw [applyBalanceUpdate_openOrders] at hk
    rw [applyBalanceUpdate_orders]
    exact ih k hk
  | listStatus evt _ ih =>
    intro k hk
    rw [applyListStatus_openOrders] at hk
    rw [applyListStatus_orders]
    exact ih k hk

/-! ### Lemmas about `accountPositionFold` -/

theorem apf_lookup_not_mem (pos : List BalanceEntry) : ∀ (bal : List (String × Balance))
    (key : String), (∀ b ∈ pos, ∀ a, b.asset = some a → upperString a ≠ key) →
    dictLookup key (accountPositionFold pos bal) = dictLookup key bal := by
  induction pos with
  | nil => intro bal key _; rfl
  | cons b0 rest ih =>
    intro bal key hcond
    have htl : ∀ b ∈ rest, ∀ a, b.asset = some a → upperString a ≠ key :=
      fun b hb a ha => hcond b (List.mem_cons_of_mem _ hb) a ha
    cases ha0 : b0.asset with
    | none => simpa [accountPositionFold, ha0] using ih bal key htl
    | some a0 =>
      by_cases hz : a0 = ""
      · simpa [accountPositionFold, ha0, hz] using ih bal key htl
      · have hne : upperString a0 ≠ key := hcond b0 (List.mem_cons_self _ _) a0 ha0
        simp only [accountPositionFold, ha0, if_neg hz]
        rw [ih _ key htl, dictLookup_insert_ne _ _ (fun he => hne he.symm)]

theorem apf_overwrite (pos : List BalanceEntry)
    (hnodup : (pos.filterMap (fun b => b.asset.map (fun a => upperString a))).Nodup) :
    ∀ (bal : List (String × Balance)) (b : BalanceEntry) (a : String), b ∈ pos →
    b.asset = some a → a ≠ "" →
    dictLookup (upperString a) (accountPositionFold pos bal) =
      some { asset := upperString a, free := b.free, locked := b.locked } := by
  induction pos with
  | nil => intro bal b a hb; simp at hb
  | cons b0 rest ih =>
    intro bal b a hb ha hz
    rcases List.mem_cons.mp hb with he | htl
    · subst he
      simp only [accountPositionFold, ha, if_neg hz]
      have hkey : upperString a ∉ rest.filterMap (fun b => b.asset.map (fun x => upperString x)) := by
        have hthis := hnodup
        simp only [List.filterMap_cons, ha, Option.map_some] at hthis
        exact (List.nodup_cons.mp hthis).1
      have hcond : ∀ b' ∈ rest, ∀ a', b'.asset = some a' → upperString a' ≠ upperString a := by
        intro b' hb' a' ha' he
        refine hkey (List.mem_filterMap.mpr ⟨b', hb', ?_⟩)
        rw [ha']
        show some (upperString a') = some (upperString a)
        rw [he]
      rw [apf_lookup_not_mem rest _ _ hcond, dictLookup_insert_self]
    · cases ha0 : b0.asset with
      | none =>
        have hnd : (rest.filterMap (fun b => b.asset.map (fun a => upperString a))).Nodup := by
          have hthis := hnodup
          simpa only [List.filterMap_cons, ha0, Option.map_none] using hthis
        simpa [accountPositionFold, ha0] using ih hnd bal b a htl ha hz
      | some a0 =>
        have hnd : (rest.filterMap (fun b => b.asset.map (fun a => upperString a))).Nodup := by
          have hthis := hnodup
          simp only [List.filterMap_cons, ha0, Option.map_some] at hthis
          exact (List.nodup_cons.mp hthis).2
        by_cases hz0 : a0 = ""
        · simpa [accountPositionFold, ha0, hz0] using ih hnd _ b a htl ha hz
        · simp only [accountPositionFold, ha0, if_neg hz0]
          exact ih hnd _ b a htl ha hz

/-! ### Status-class lemmas -/

theorem final_not_open {st : Option String} (h : isFinalStatus st = true) :
    isOpenStatus st = false := by
  cases st with
  | none => simp [isFinalStatus] at h
  | some s =>
    simp only [isFinalStatus, Bool.or_eq_true, decide_eq_true_eq] at h
    rcases h with ((h | h) | h) | h <;> subst h <;> rfl

theorem pushHistory_length {h : List Order} (o : Order) (hlen : h.length < historyMax) :
    (pushHistory h o).length = h.length + 1 := by
  unfold pushHistory
  rw [if_pos hlen]
  simp

/-! ### Watchdog lemmas -/

theorem watchdogFires_facts {staleAfter : ℚ} {st : WatchdogState} {c : WatchdogCheck}
    (h : watchdogFires staleAfter st c = true) :
    ∃ t0, c.lastEventTime = some t0 ∧ staleAfter < c.now - t0 ∧
      (∀ f, st.lastFallbackTs = some f → f = 0 ∨ staleAfter ≤ c.now - f) := by
  unfold watchdogFires at h
  cases he : c.lastEventTime with
  | none => rw [he] at h; exact Bool.noConfusion h
  | some t0 =>
    rw [he] at h
    dsimp only at h
    by_cases hage : staleAfter < c.now - t0
    · refine ⟨t0, rfl, hage, ?_⟩
      intro f hf
      rw [if_pos hage, hf] at h
      dsimp only at h
      by_cases hd : f ≠ 0 ∧ c.now - f < staleAfter
      · rw [if_pos hd] at h
        exact Bool.noConfusion h
      · rcases Decidable.not_and_iff_or_not.mp hd with h1 | h1
        · exact Or.inl (by simpa using h1)
        · exact Or.inr (le_of_not_lt h1)
    · rw [if_neg hage] at h
      exact Bool.noConfusion h

theorem watchdogFires_now_pos {staleAfter : ℚ} {st : WatchdogState} {c : WatchdogCheck}
    (hpos : 0 < staleAfter) (hev : ∀ t, c.lastEventTime = some t → 0 ≤ t)
    (h : watchdogFires staleAfter st c = true) : 0 < c.now := by
  obtain ⟨t0, he, hage, _⟩ := watchdogFires_facts h
  have ht0 : 0 ≤ t0 := hev t0 he
  have : staleAfter < c.now - t0 := hage
  linarith

theorem watchdog_run_facts (staleAfter : ℚ) (hpos : 0 < staleAfter) :
    ∀ (checks : List WatchdogCheck) (st : WatchdogState),
    (∀ c ∈ checks, ∀ t, c.lastEventTime = some t → 0 ≤ t) →
    (∀ f, st.lastFallbackTs = some f → 0 < f) →
    List.Chain' (fun a b => a + staleAfter ≤ b)
        ((watchdogFiredChecks staleAfter st checks).map (fun c => c.now)) ∧
      (∀ f, st.lastFallbackTs = some f →
        ∀ c ∈ watchdogFiredChecks staleAfter st checks, f + staleAfter ≤ c.now) ∧
      watchdogMsgs staleAfter st checks =
        (watchdogFiredChecks staleAfter st checks).flatMap watchdogFireMsgs := by
  intro checks
  induction checks with
  | nil =>
    intro st _ _
    exact ⟨List.chain'_nil, fun _ _ x hc => absurd hc (List.not_mem_nil x), rfl⟩
  | cons c cs ih =>
    intro st hev hst
    have hevtl : ∀ c' ∈ cs, ∀ t, c'.lastEventTime = some t → 0 ≤ t :=
      fun c' hc' => hev c' (List.mem_cons_of_mem _ hc')
    by_cases hf : watchdogFires staleAfter st c = true
    · have hnow : 0 < c.now :=
        watchdogFires_now_pos hpos (hev c (List.mem_cons_self _ _)) hf
      have hstep1 : (watchdogStep staleAfter st c).1 = { lastFallbackTs := some c.now } := by
        unfold watchdogStep
        rw [if_pos hf]
      have hstep2 : (watchdogStep staleAfter st c).2 = watchdogFireMsgs c := by
        unfold watchdogStep
        rw [if_pos hf]
      have hst' : ∀ f, ({ lastFallbackTs := some c.now } : WatchdogState).lastFallbackTs =
          some f → 0 < f := by
        intro f hfz
        injection hfz with hfz
        exact hfz ▸ hnow
      obtain ⟨ihchain, ihlow, ihmsgs⟩ := ih { lastFallbackTs := some c.now } hevtl hst'
      have hfired : watchdogFiredChecks staleAfter st (c :: cs) =
          c :: watchdogFiredChecks staleAfter { lastFallbackTs := some c.now } cs := by
        show (if watchdogFires staleAfter st c = true then
            c :: watchdogFiredChecks staleAfter (watchdogStep staleAfter st c).1 cs
          else watchdogFiredChecks staleAfter (watchdogStep staleAfter st c).1 cs) =
          c :: watchdogFiredChecks staleAfter { lastFallbackTs := some c.now } cs
        rw [if_pos hf, hstep1]
      have hlowc : ∀ x ∈ watchdogFiredChecks staleAfter { lastFallbackTs := some c.now } cs,
          c.now + staleAfter ≤ x.now := ihlow c.now rfl
      refine ⟨?_, ?_, ?_⟩
      · rw [hfired, List.map_cons]
        refine List.chain'_cons'.mpr ⟨?_, ihchain⟩
        intro y hy
        rw [List.head?_map] at hy
        cases hhead : (watchdogFiredChecks staleAfter
            { lastFallbackTs := some c.now } cs).head? with
        | none => rw [hhead] at hy; simp at hy
        | some x =>
          rw [hhead] at hy
          have hy' : some x.now = some y := hy
          injection hy' with hy'
          subst hy'
          exact hlowc x (List.mem_of_mem_head? (by rw [hhead]; rfl))
      · intro f hfz x hx
        have hf0 : 0 < f := hst f hfz
        obtain ⟨t0, he, hage, hdeb⟩ := watchdogFires_facts hf
        have hfc : f + staleAfter ≤ c.now := by
          rcases hdeb f hfz with h0 | hle
          · exact absurd h0 (ne_of_gt hf0)
          · linarith
        rw [hfired] at hx
        rcases List.mem_cons.mp hx with he2 | htl2
        · subst he2; exact hfc
        · have hxl := hlowc x htl2
          linarith
      · have hmsgs : watchdogMsgs staleAfter st (c :: cs) =
            (watchdogStep staleAfter st c).2 ++
              watchdogMsgs staleAfter (watchdogStep staleAfter st c).1 cs := rfl
        rw [hmsgs, hstep1, hstep2, ihmsgs, hfired, List.flatMap_cons]
    · have hstep1 : (watchdogStep staleAfter st c).1 = st := by
        unfold watchdogStep
        rw [if_neg hf]
      have hstep2 : (watchdogStep staleAfter st c).2 = [] := by
        unfold watchdogStep
        rw [if_neg hf]
      have hfired : watchdogFiredChecks staleAfter st (c :: cs) =
          watchdogFiredChecks staleAfter st cs := by
        show (if watchdogFires staleAfter st c = true then
            c :: watchdogFiredChecks staleAfter (watchdogStep staleAfter st c).1 cs
          else watchdogFiredChecks staleAfter (watchdogStep staleAfter st c).1 cs) =
          watchdogFiredChecks staleAfter st cs
        rw [if_neg hf, hstep1]
      obtain ⟨ihchain, ihlow, ihmsgs⟩ := ih st hevtl hst
      refine ⟨by rw [hfired]; exact ihchain, ?_, ?_⟩
      · intro f hfz x hx
        rw [hfired] at hx
        exact ihlow f hfz x hx
      · have hmsgs : watchdogMsgs staleAfter st (c :: cs) =
            (watchdogStep staleAfter st c).2 ++
              watchdogMsgs staleAfter (watchdogStep staleAfter st c).1 cs := rfl
        rw [hmsgs, hstep1, hstep2, ihmsgs, hfired, List.nil_append]

/-! ### Claims -/

/-- C1, counterexample: `apply_execution_report` has no timestamp guard.  The
order stored after `tradeFillEvent` carries `updateTime = 1000`; re-applying
the very same event (timestamp 1000, not newer) appends a second fill record,
so the second application is not a no-op. -/
theorem c1_counterexample :
    (dictLookup 1 (applyExecutionReport OrderStore.empty tradeFillEvent).orders).map
        (fun o => o.updateTime) = some (some 1000) ∧
      tradeFillEvent.eventTime = some 1000 ∧
      (dictLookup 1 (applyExecutionReport OrderStore.empty tradeFillEvent).orders).map
        (fun o => o.fills.length) = some 1 ∧
      (dictLookup 1 (applyExecutionReport (applyExecutionReport OrderStore.empty
          tradeFillEvent) tradeFillEvent).orders).map (fun o => o.fills.length) =
        some 2 := by
  decide

/-- C1 (amended): `apply_execution_report` performs no event-timestamp
comparison at all.  Re-applying an event leaves the orders map and the open
set unchanged only when the event carries no trade fill (execution type not
TRADE, or last quantity ≤ 0); re-applying a trade-fill event appends a
duplicate fill record (see the counterexample), and every application
enqueues a further notification. -/
theorem c1_no_timestamp_guard (store : OrderStore) (rep : ExecReport)
    (h : rep.execType ≠ some "TRADE" ∨ rep.lastQty ≤ 0) :
    (applyExecutionReport (applyExecutionReport store rep) rep).orders =
        (applyExecutionReport store rep).orders ∧
      (applyExecutionReport (applyExecutionReport store rep) rep).openOrders =
        (applyExecutionReport store rep).openOrders := by
  apply applyExec_reapply
  intro hc
  rcases h with h | h
  · exact h hc.1
  · exact absurd hc.2 (not_lt.mpr h)

/-- Witness for C1 at the concrete no-fill event `newStatusEvent`. -/
theorem c1_witness :
    (applyExecutionReport (applyExecutionReport OrderStore.empty newStatusEvent)
        newStatusEvent).orders =
        (applyExecutionReport OrderStore.empty newStatusEvent).orders ∧
      (applyExecutionReport (applyExecutionReport OrderStore.empty newStatusEvent)
        newStatusEvent).openOrders =
        (applyExecutionReport OrderStore.empty newStatusEvent).openOrders :=
  c1_no_timestamp_guard OrderStore.empty newStatusEvent (Or.inl (by decide))

/-- C2, counterexample: the history ring gains one entry on EVERY event whose
status is terminal, not only on the first transition into a terminal status:
re-delivering the FILLED event for order 5 yields two history entries. -/
theorem c2_counterexample :
    (applyExecutionReport OrderStore.empty filledEvent5).history.length = 1 ∧
      (applyExecutionReport (applyExecutionReport OrderStore.empty filledEvent5)
        filledEvent5).history.length = 2 ∧
      ((applyExecutionReport (applyExecutionReport OrderStore.empty filledEvent5)
        filledEvent5).history.map (fun o => o.orderId)) = [5, 5] := by
  decide

/-- C2 (amended): for each execution report carrying an order id, the history
ring gains exactly one entry precisely when the event's mapped status is
terminal (FILLED, CANCELED, REJECTED, EXPIRED) — one per terminal event
regardless of the order's previous status, so redelivered terminal events
append duplicates — and after any terminal event the order is absent from the
open set; a non-terminal event leaves the history unchanged. -/
theorem c2_history_per_terminal (s : OrderStore) (rep : ExecReport) (oid : ℕ)
    (hid : rep.orderId = some oid) (hcap : s.history.length < historyMax) :
    (isFinalStatus (mapStatus rep.status) = true →
        (applyExecutionReport s rep).history.length = s.history.length + 1 ∧
          oid ∉ (applyExecutionReport s rep).openOrders) ∧
      (isFinalStatus (mapStatus rep.status) = false →
        (applyExecutionReport s rep).history = s.history) := by
  constructor
  · intro hfin
    have hopen : isOpenStatus (mapStatus rep.status) = false := final_not_open hfin
    constructor
    · rw [applyExec_history hid]
      simp only [hopen, hfin, Bool.false_eq_true, if_false, if_true]
      exact pushHistory_length _ hcap
    · rw [applyExec_openOrders hid]
      simp only [hopen, Bool.false_eq_true, if_false]
      exact Finset.not_mem_erase oid s.openOrders
  · intro hfin
    rw [applyExec_history hid]
    by_cases hopen : isOpenStatus (mapStatus rep.status) = true
    · simp [hopen]
    · simp only [Bool.not_eq_true] at hopen
      simp [hopen, hfin]

/-- Witness for C2 at the concrete FILLED event for order 5. -/
theorem c2_witness :
    (isFinalStatus (mapStatus filledEvent5.status) = true →
        (applyExecutionReport OrderStore.empty filledEvent5).history.length =
            OrderStore.empty.history.length + 1 ∧
          5 ∉ (applyExecutionReport OrderStore.empty filledEvent5).openOrders) ∧
      (isFinalStatus (mapStatus filledEvent5.status) = false →
        (applyExecutionReport OrderStore.empty filledEvent5).history =
          OrderStore.empty.history) :=
  c2_history_per_terminal OrderStore.empty filledEvent5 5 (by decide) (by decide)

/-- C3, counterexample: the claimed invariant fails on reachable states.
`c3BadStore` is reached by applying a FILLED report for order 7 and then
reconciling against a REST snapshot that still lists order 7: afterwards 7 is
in the open set while its stored status is FILLED. -/
theorem c3_counterexample :
    ¬ (∀ s : OrderStore, Reachable s → OpenInvariant s) := by
  intro hall
  have hreach : Reachable c3BadStore :=
    Reachable.mergeRest [restEntry 7] []
      (Reachable.execReport filledEvent7 Reachable.init)
  obtain ⟨ord, hord, hst⟩ := hall c3BadStore hreach 7 (by decide)
  have hstat : (dictLookup 7 c3BadStore.orders).map (fun o => o.status) =
      some (some "FILLED") := by decide
  rw [hord] at hstat
  have hstat2 : some ord.status = some (some "FILLED") := hstat
  injection hstat2 with hstat2
  rcases hst with h | h <;> rw [h] at hstat2 <;> exact absurd hstat2 (by decide)

/-- C3 (amended): in every reachable store state the open set is contained in
the keys of the all-known-orders map; the stronger claimed invariant — the
stored status of every open order is NEW or PARTIALLY_FILLED — holds for all
states reachable by event application alone, but `merge_rest_open_orders` can
re-open an order while leaving its terminal status in place (see the
counterexample). -/
theorem c3_open_invariant :
    (∀ s : OrderStore, Reachable s → OpenSubsetOrders s) ∧
      (∀ s : OrderStore, ReachableApply s → OpenInvariant s) :=
  ⟨fun _ h => openSubset_reachable h, fun _ h => openInvariant_reachableApply h⟩

/-- Witness for C3 at the concrete store holding the open NEW order 2. -/
theorem c3_witness :
    (dictLookup 2 (applyExecutionReport OrderStore.empty newStatusEvent).orders).isSome =
        true ∧
      ∃ ord, dictLookup 2 (applyExecutionReport OrderStore.empty
          newStatusEvent).orders = some ord ∧
        (ord.status = some "NEW" ∨ ord.status = some "PARTIALLY_FILLED") :=
  ⟨c3_open_invariant.1 _ (Reachable.execReport newStatusEvent Reachable.init) 2
      (by decide),
   c3_open_invariant.2 _ (ReachableApply.execReport newStatusEvent ReachableApply.init) 2
      (by decide)⟩

/-- C4: after `merge_rest_open_orders` the open set equals exactly the ids of
the REST snapshot; every locally-open id absent from the snapshot leaves the
open set with its stored record untouched; every snapshot id unknown locally
becomes a placeholder record, with status NEW when the snapshot entry carries
no status. -/
theorem c4_reconciliation (s : OrderStore) (ro : List RestOrder)
    (rb : List BalanceEntry)
    (hnodup : (ro.filterMap (fun o => o.orderId)).Nodup) :
    (mergeRestOpenOrders s ro rb).1.openOrders = restIdsOf ro ∧
      (∀ oid ∈ s.openOrders, oid ∉ restIdsOf ro →
        oid ∉ (mergeRestOpenOrders s ro rb).1.openOrders ∧
          dictLookup oid (mergeRestOpenOrders s ro rb).1.orders =
            dictLookup oid s.orders) ∧
      (∀ o ∈ ro, ∀ oid, o.orderId = some oid → dictLookup oid s.orders = none →
        o.status = none →
          dictLookup oid (mergeRestOpenOrders s ro rb).1.orders =
              some (placeholderOrder oid o) ∧
            (placeholderOrder oid o).status = some "NEW") := by
  refine ⟨merge_openOrders s ro rb, ?_, ?_⟩
  · intro oid _ hnot
    constructor
    · rw [merge_openOrders]
      exact hnot
    · rw [merge_orders]
      exact mergeLoop_lookup_not_mem ro _ oid hnot
  · intro o ho oid hid hnone hstat
    constructor
    · rw [merge_orders]
      exact mergeLoop_placeholder ro hnodup _ o oid ho hid hnone
    · show some (o.status.getD "NEW") = some "NEW"
      rw [hstat]
      rfl

/-- Witness for C4 at the spec scenario: local open set {1, 2}, snapshot
{2, 3}. -/
theorem c4_witness :
    (mergeRestOpenOrders c4StoreAB [restEntry 2, restEntry 3] []).1.openOrders =
        restIdsOf [restEntry 2, restEntry 3] ∧
      (1 ∉ (mergeRestOpenOrders c4StoreAB [restEntry 2, restEntry 3] []).1.openOrders ∧
        dictLookup 1
            (mergeRestOpenOrders c4StoreAB [restEntry 2, restEntry 3] []).1.orders =
          dictLookup 1 c4StoreAB.orders) ∧
      dictLookup 3 (mergeRestOpenOrders c4StoreAB [restEntry 2, restEntry 3] []).1.orders =
          some (placeholderOrder 3 (restEntry 3)) ∧
        (placeholderOrder 3 (restEntry 3)).status = some "NEW" := by
  have h := c4_reconciliation c4StoreAB [restEntry 2, restEntry 3] [] (by decide)
  exact ⟨h.1, h.2.1 1 (by decide) (by decide),
    h.2.2 (restEntry 3) (by decide) 3 (by decide) (by decide) (by decide)⟩

/-- C5, counterexample: the balances-changed notification enqueued by
`apply_account_position` carries the WHOLE balance map, not only the assets
supplied by the event: after an ETH-only store receives a BTC-only event, the
notification contains both ETH and BTC. -/
theorem c5_counterexample :
    (applyAccountPosition (applyAccountPosition OrderStore.empty [ethEntry])
        [btcEntry]).notifications =
        (applyAccountPosition OrderStore.empty [ethEntry]).notifications ++
          [Notif.balanceDelta [ethBalance, btcBalance]] ∧
      (∀ b ∈ [btcEntry], b.asset ≠ some "ETH") ∧
      ethBalance.asset = "ETH" := by
  decide

/-- C5 (amended): `apply_account_position` overwrites each supplied asset and
does not clear absent assets, and enqueues exactly one balances-changed
notification — but that notification carries the full updated balance map
(every known asset), not only the assets supplied by the event. -/
theorem c5_full_balance_notification (s : OrderStore) (pos : List BalanceEntry)
    (hnodup : (pos.filterMap (fun b => b.asset.map (fun a => upperString a))).Nodup) :
    (applyAccountPosition s pos).notifications =
        s.notifications ++
          [Notif.balanceDelta ((applyAccountPosition s pos).balances.map Prod.snd)] ∧
      (∀ b ∈ pos, ∀ a, b.asset = some a → a ≠ "" →
        dictLookup (upperString a) (applyAccountPosition s pos).balances =
          some { asset := upperString a, free := b.free, locked := b.locked }) ∧
      (∀ key, (∀ b ∈ pos, ∀ a, b.asset = some a → upperString a ≠ key) →
        dictLookup key (applyAccountPosition s pos).balances =
          dictLookup key s.balances) := by
  refine ⟨rfl, ?_, ?_⟩
  · intro b hb a ha hz
    exact apf_overwrite pos hnodup s.balances b a hb ha hz
  · intro key hkey
    exact apf_lookup_not_mem pos s.balances key hkey

/-- Witness for C5 at the concrete single-asset event `btcEntry`. -/
theorem c5_witness :
    (applyAccountPosition OrderStore.empty [btcEntry]).notifications =
        OrderStore.empty.notifications ++
          [Notif.balanceDelta
            ((applyAccountPosition OrderStore.empty [btcEntry]).balances.map Prod.snd)] ∧
      dictLookup (upperString "BTC")
          (applyAccountPosition OrderStore.empty [btcEntry]).balances =
        some { asset := upperString "BTC", free := btcEntry.free, locked := btcEntry.locked } ∧
      dictLookup "ETH" (applyAccountPosition OrderStore.empty [btcEntry]).balances =
        dictLookup "ETH" OrderStore.empty.balances := by
  have h := c5_full_balance_notification OrderStore.empty [btcEntry] (by decide)
  exact ⟨h.1, h.2.1 btcEntry (by decide) "BTC" (by decide) (by decide),
    h.2.2 "ETH" (by decide)⟩

/-- C6: after `apply_execution_report` the stored average price equals the
stored cumulative quote amount divided by the stored cumulative executed
quantity whenever the latter is positive; otherwise the average price keeps
its prior value (0 for a freshly created order), and no division is
performed. -/
theorem c6_avg_price (s : OrderStore) (rep : ExecReport) (oid : ℕ)
    (hid : rep.orderId = some oid) (ord : Order)
    (hord : dictLookup oid (applyExecutionReport s rep).orders = some ord) :
    (0 < ord.executedQty →
        ord.avgPrice = ord.cummulativeQuoteQty / ord.executedQty) ∧
      (¬ 0 < ord.executedQty →
        ord.avgPrice = ((dictLookup oid s.orders).map (fun o => o.avgPrice)).getD 0) := by
  rw [applyExec_orders hid, dictLookup_insert_self] at hord
  injection hord with hord
  subst hord
  constructor
  · intro hpos
    exact execUpdated_avgPrice_pos _ _ hpos
  · intro hpos
    rw [execUpdated_avgPrice_nonpos _ _ hpos]
    unfold execBase
    cases h : dictLookup oid s.orders with
    | none => rfl
    | some o => rfl

/-- Witness for C6 at the order-555 scenario: executed 1, cumulative quote
100.5, average price 100.5. -/
theorem c6_witness :
    (0 < order555.executedQty →
        order555.avgPrice = order555.cummulativeQuoteQty / order555.executedQty) ∧
      (¬ 0 < order555.executedQty →
        order555.avgPrice =
          ((dictLookup 555 store555two.orders).map (fun o => o.avgPrice)).getD 0) :=
  c6_avg_price store555two e555c 555 (by decide) order555 rfl

/-- C7, counterexample: an execution report for an unseen order id that
carries no status creates the order with status ABSENT (`None`), not NEW: the
NEW default exists only for the REST placeholders of
`merge_rest_open_orders`. -/
theorem c7_counterexample :
    noStatusEvent9.status = none ∧
      dictLookup 9 OrderStore.empty.orders = none ∧
      (dictLookup 9 (applyExecutionReport OrderStore.empty noStatusEvent9).orders).map
        (fun o => o.status) = some none ∧
      some (none : Option String) ≠ some (some "NEW") := by
  decide

/-- C7 (amended): when `apply_execution_report` creates an order for an
unseen id, the created order's status is the event's (mapped) status
verbatim — in particular absent (`None`) when the event carries no status;
there is no NEW default on this path. -/
theorem c7_created_status (s : OrderStore) (rep : ExecReport) (oid : ℕ)
    (hid : rep.orderId = some oid)
    (_hnew : dictLookup oid s.orders = none) :
    (dictLookup oid (applyExecutionReport s rep).orders).map (fun o => o.status) =
        some (mapStatus rep.status) ∧
      (rep.status = none →
        (dictLookup oid (applyExecutionReport s rep).orders).map (fun o => o.status) =
          some none) := by
  have h1 : (dictLookup oid (applyExecutionReport s rep).orders).map
      (fun o => o.status) = some (mapStatus rep.status) := by
    rw [applyExec_orders hid, dictLookup_insert_self]
    show some ((execUpdated rep (execBase s rep oid)).status) = _
    rw [execUpdated_status]
  refine ⟨h1, fun h0 => ?_⟩
  rw [h1, h0]
  rfl

/-- Witness for C7 at the concrete status-free event for order 9. -/
theorem c7_witness :
    (dictLookup 9 (applyExecutionReport OrderStore.empty noStatusEvent9).orders).map
        (fun o => o.status) = some (mapStatus noStatusEvent9.status) ∧
      (noStatusEvent9.status = none →
        (dictLookup 9 (applyExecutionReport OrderStore.empty noStatusEvent9).orders).map
          (fun o => o.status) = some none) :=
  c7_created_status OrderStore.empty noStatusEvent9 9 (by decide) (by decide)

/-- C8: over any run of watchdog iterations started with no recorded
fallback, with a positive stale threshold and non-negative last-event
timestamps, consecutive fallback firings are at least the stale threshold
apart (the debounce), and the emitted message trace is exactly, per firing,
one `system` warning followed by one `orders_snapshot{fallback:true}`
(delivered only when user subscribers are connected) — so each stale episode
delivers each message exactly once. -/
theorem c8_watchdog_debounce (staleAfter : ℚ) (checks : List WatchdogCheck)
    (hpos : 0 < staleAfter)
    (hev : ∀ c ∈ checks, ∀ t, c.lastEventTime = some t → 0 ≤ t) :
    List.Chain' (fun a b => a + staleAfter ≤ b)
        ((watchdogFiredChecks staleAfter ⟨none⟩ checks).map (fun c => c.now)) ∧
      watchdogMsgs staleAfter ⟨none⟩ checks =
        (watchdogFiredChecks staleAfter ⟨none⟩ checks).flatMap watchdogFireMsgs := by
  obtain ⟨h1, _, h3⟩ := watchdog_run_facts staleAfter hpos checks ⟨none⟩ hev
    (fun f hf => Option.noConfusion hf)
  exact ⟨h1, h3⟩

/-- Witness for C8 at threshold 10 and checks at times 12, 14, 22: firings at
12 and 22 only. -/
theorem c8_witness :
    List.Chain' (fun a b => a + 10 ≤ b)
        ((watchdogFiredChecks 10 ⟨none⟩ c8Checks).map (fun c => c.now)) ∧
      watchdogMsgs 10 ⟨none⟩ c8Checks =
        (watchdogFiredChecks 10 ⟨none⟩ c8Checks).flatMap watchdogFireMsgs :=
  c8_watchdog_debounce 10 c8Checks (by norm_num) (by decide)

/-- C9, counterexample: `connect_user` performs no connection-cap check: with
the user channel already at the cap (1 connection, cap 1), a further
connection is accepted and appended, not rejected with close code 1008. -/
theorem c9_counterexample :
    c9Manager.maxConnections ≤ c9Manager.userConnections.length ∧
      (connectUser c9Manager 21).2 = ConnectResult.accepted 2 ∧
      (connectUser c9Manager 21).1.userConnections = [20, 21] := by
  decide

/-- C9 (amended): only the market channel enforces the connection cap — a
market connection arriving at the cap is rejected with policy close code 1008
and the manager state is unchanged — while `connect_user` unconditionally
accepts and appends, whatever the count. -/
theorem c9_market_cap_only (m : ConnectionManager) (ws : ℕ) :
    (m.maxConnections ≤ m.marketConnections.length →
        connectMarket m ws = (m, ConnectResult.rejected 1008)) ∧
      (connectUser m ws).1.userConnections = m.userConnections ++ [ws] ∧
      (connectUser m ws).2 = ConnectResult.accepted (m.userConnections.length + 1) := by
  refine ⟨?_, rfl, ?_⟩
  · intro hcap
    unfold connectMarket
    rw [if_pos hcap]
  · show ConnectResult.accepted (m.userConnections ++ [ws]).length = _
    rw [List.length_append]
    rfl

/-- Witness for C9 at the concrete manager with both channels at the cap. -/
theorem c9_witness :
    connectMarket c9Manager 11 = (c9Manager, ConnectResult.rejected 1008) ∧
      (connectUser c9Manager 21).1.userConnections =
        c9Manager.userConnections ++ [21] ∧
      (connectUser c9Manager 21).2 =
        ConnectResult.accepted (c9Manager.userConnections.length + 1) :=
  ⟨(c9_market_cap_only c9Manager 11).1 (by decide),
   (c9_market_cap_only c9Manager 21).2.1,
   (c9_market_cap_only c9Manager 21).2.2⟩

/-- C10: `merge_rest_open_orders` never mutates an order record already
present in the all-known-orders map — its lookup is unchanged field for
field, even when the snapshot lists an order whose local status is terminal —
and the history ring, the OCO-list map and the notification queue are
untouched; only open-set membership, newly created placeholders and the
balance map can change. -/
theorem c10_merge_preserves_known (s : OrderStore) (ro : List RestOrder)
    (rb : List BalanceEntry) (oid : ℕ) (ord : Order)
    (h : dictLookup oid s.orders = some ord) :
    dictLookup oid (mergeRestOpenOrders s ro rb).1.orders = some ord ∧
      (mergeRestOpenOrders s ro rb).1.history = s.history ∧
      (mergeRestOpenOrders s ro rb).1.ocoLists = s.ocoLists ∧
      (mergeRestOpenOrders s ro rb).1.notifications = s.notifications := by
  refine ⟨?_, merge_history s ro rb, merge_ocoLists s ro rb, merge_notifications s ro rb⟩
  rw [merge_orders]
  exact mergeLoop_lookup_preserved ro _ oid ord h

/-- Witness for C10: the FILLED order 7 survives a reconciliation that still
lists it, field for field. -/
theorem c10_witness :
    dictLookup 7 (mergeRestOpenOrders c10Store [restEntry 7] []).1.orders =
        some order7 ∧
      (mergeRestOpenOrders c10Store [restEntry 7] []).1.history = c10Store.history ∧
      (mergeRestOpenOrders c10Store [restEntry 7] []).1.ocoLists = c10Store.ocoLists ∧
      (mergeRestOpenOrders c10Store [restEntry 7] []).1.notifications =
        c10Store.notifications :=
  c10_merge_preserves_known c10Store [restEntry 7] [] 7 order7 (by decide)

end Srinance
